import Mathlib

/-!
Shallow embedding of the PID manager from `src/pid_manager.hpp`
(class `PIDManager`), together with the concrete call sequences of
`src/test.cpp`.  Machine `int`s are modelled as `Int` (all values in this
program are tiny, so no overflow wrapping occurs in the source); the
`std::vector<unsigned char>` bitmap becomes a `List Bool` (byte `0` ↦
`false` = FREE, nonzero ↦ `true` = IN_USE); the constructor's `throw` of
`std::invalid_argument` becomes an `Except String` result.
-/

/-- State of a `PIDManager` object (fields of the C++ class, same names;
`initialized_` keeps the trailing underscore of the source). -/
structure PIDManager where
  min_pid : Int
  max_pid : Int
  bitmap : List Bool
  next : Int
  initialized_ : Bool
  deriving DecidableEq, Repr

/-- Reading `bitmap[pid]` (a `std::vector` access with an `int` index).
In every state the source actually reaches, `0 ≤ pid < bitmap.size()`,
so the out-of-bounds default (and `Int.toNat` clamping of negatives) is
never exercised there. -/
def bitAt (bitmap : List Bool) (pid : Int) : Bool :=
  bitmap.getD pid.toNat false

/-- The constructor `PIDManager(int minPid, int maxPid)`:
member-initializes `min_pid`, `max_pid`, a zero-filled bitmap of size
`maxPid + 1`, `next = minPid`, `initialized_ = false`, then throws
`std::invalid_argument` if `min_pid < 0 || max_pid < min_pid`.
(When `maxPid < 0` the vector constructor itself would already fail with
a huge `size_t`; either way construction is fatal, modelled as `.error`.) -/
def mkPIDManager (minPid maxPid : Int) : Except String PIDManager :=
  if minPid < 0 ∨ maxPid < minPid then
    Except.error "Invalid PID range"
  else
    Except.ok
      { min_pid := minPid
        max_pid := maxPid
        bitmap := List.replicate (maxPid + 1).toNat false
        next := minPid
        initialized_ := false }

/-- `allocate_map()`: re-zeroes the bitmap, resets `next` to `min_pid`,
sets `initialized_`, returns `1`.  (The C++ `catch` branch is unreachable:
`std::fill` over an already-allocated vector does not throw.) -/
def PIDManager.allocate_map (m : PIDManager) : Int × PIDManager :=
  (1, { m with bitmap := List.replicate m.bitmap.length false
               next := m.min_pid
               initialized_ := true })

/-- One `for` loop of `allocate_pid`: scan `bitmap[lo]`, `bitmap[lo+1]`, …
for `fuel` iterations, returning the first index holding `0` (FREE).
`fuel` is the trip count of the C++ loop. -/
def scanFromAux (bitmap : List Bool) : Nat → Int → Option Int
  | 0, _ => none
  | fuel + 1, lo =>
    if bitAt bitmap lo = false then some lo
    else scanFromAux bitmap fuel (lo + 1)

/-- `for (int pid = lo; pid <= hi; ++pid) if (bitmap[pid] == 0) return pid;` -/
def scanFrom (bitmap : List Bool) (lo hi : Int) : Option Int :=
  scanFromAux bitmap (hi + 1 - lo).toNat lo

/-- The cursor update after issuing `pid`:
`next = (pid + 1 > max_pid) ? min_pid : pid + 1;`. -/
def nextAfter (m : PIDManager) (pid : Int) : Int :=
  if m.max_pid < pid + 1 then m.min_pid else pid + 1

/-- `allocate_pid()`: returns `-1` if not initialized or the range is
degenerate; otherwise scans `[next, max_pid]` then `[min_pid, next - 1]`
for a FREE slot, marks it IN_USE and advances the cursor; `-1` when both
scans fail (exhaustion).  The C++ `int start = next;` saves the cursor
because the field is mutated before the wrap scan's bound is used; with
pure state passing `m.next` is that saved value, so no copy is needed. -/
def PIDManager.allocate_pid (m : PIDManager) : Int × PIDManager :=
  if !m.initialized_ then (-1, m)
  else if m.max_pid < m.min_pid then (-1, m)
  else
    match scanFrom m.bitmap m.next m.max_pid with
    | some pid =>
      (pid, { m with bitmap := m.bitmap.set pid.toNat true
                     next := nextAfter m pid })
    | none =>
      match scanFrom m.bitmap m.min_pid (m.next - 1) with
      | some pid =>
        (pid, { m with bitmap := m.bitmap.set pid.toNat true
                       next := nextAfter m pid })
      | none => (-1, m)

/-- `release_pid(int pid)`: no-op if uninitialized or out of range;
otherwise clears the slot and pulls the cursor back when `pid < next`. -/
def PIDManager.release_pid (m : PIDManager) (pid : Int) : PIDManager :=
  if !m.initialized_ then m
  else if pid < m.min_pid ∨ m.max_pid < pid then m
  else
    { m with bitmap := m.bitmap.set pid.toNat false
             next := if pid < m.next then pid else m.next }

/-- `in_range(int pid)`. -/
def PIDManager.in_range (m : PIDManager) (pid : Int) : Bool :=
  m.min_pid ≤ pid ∧ pid ≤ m.max_pid

/-- `is_allocated(int pid)`: `false` out of range, else `bitmap[pid] != 0`. -/
def PIDManager.is_allocated (m : PIDManager) (pid : Int) : Bool :=
  if pid < m.min_pid ∨ m.max_pid < pid then false
  else bitAt m.bitmap pid

/-- The list of results of `n` consecutive `allocate_pid()` calls. -/
def allocResults : PIDManager → Nat → List Int
  | _, 0 => []
  | m, n + 1 =>
    let r := m.allocate_pid
    r.1 :: allocResults r.2 n

/-- The manager state after `n` consecutive `allocate_pid()` calls. -/
def afterAllocs : PIDManager → Nat → PIDManager
  | m, 0 => m
  | m, n + 1 => afterAllocs (m.allocate_pid).2 n

/-! ### Spec-side vocabulary (used to compare the code against the spec's
wording in refinement statements) -/

/-- The list `lo, lo + 1, …, hi` of integers (empty when `hi < lo`). -/
def intRange (lo hi : Int) : List Int :=
  (List.range (hi + 1 - lo).toNat).map (fun (i : Nat) => lo + (i : Int))

/-- The wraparound scan order described by the spec: "scans forward from
`cursor` through `upper` inclusive, then wraps and scans from `lower` up
to (but not including) the original `cursor`". -/
def specScanOrder (m : PIDManager) : List Int :=
  intRange m.next m.max_pid ++ intRange m.min_pid (m.next - 1)

/-- "the first FREE slot found" in the spec's wraparound order. -/
def specFirstFree (m : PIDManager) : Option Int :=
  (specScanOrder m).find? (fun pid => !bitAt m.bitmap pid)

/-! ### Lemmas about the scan loops -/

theorem scanFromAux_eq_find? (b : List Bool) (n : Nat) (lo : Int) :
    scanFromAux b n lo =
      ((List.range n).map (fun (i : Nat) => lo + (i : Int))).find?
        (fun pid => !bitAt b pid) := by
  induction n generalizing lo with
  | zero => rfl
  | succ k ih =>
    have hmap : (List.range (k + 1)).map (fun (i : Nat) => lo + (i : Int))
        = lo :: (List.range k).map (fun (i : Nat) => (lo + 1) + (i : Int)) := by
      rw [List.range_succ_eq_map, List.map_cons, List.map_map]
      refine congrArg₂ List.cons (by simp) (List.map_congr_left fun a _ => ?_)
      simp only [Function.comp, Nat.succ_eq_add_one]
      push_cast
      ring
    rw [hmap, List.find?_cons]
    cases hb : bitAt b lo with
    | false => simp [scanFromAux, hb]
    | true => simp [scanFromAux, hb, ih]

theorem scanFrom_eq_find? (b : List Bool) (lo hi : Int) :
    scanFrom b lo hi = (intRange lo hi).find? (fun pid => !bitAt b pid) := by
  rw [scanFrom, scanFromAux_eq_find?, intRange]

theorem scanFromAux_some_bounds (b : List Bool) (n : Nat) (lo pid : Int)
    (h : scanFromAux b n lo = some pid) : lo ≤ pid ∧ pid < lo + n := by
  induction n generalizing lo with
  | zero => simp [scanFromAux] at h
  | succ k ih =>
    rw [scanFromAux] at h
    split at h
    · obtain rfl : lo = pid := by simpa using h
      omega
    · have := ih (lo + 1) h
      omega

theorem scanFromAux_some_free (b : List Bool) (n : Nat) (lo pid : Int)
    (h : scanFromAux b n lo = some pid) : bitAt b pid = false := by
  induction n generalizing lo with
  | zero => simp [scanFromAux] at h
  | succ k ih =>
    rw [scanFromAux] at h
    split at h
    · obtain rfl : lo = pid := by simpa using h
      assumption
    · exact ih (lo + 1) h

theorem scanFrom_some_bounds (b : List Bool) (lo hi pid : Int)
    (h : scanFrom b lo hi = some pid) : lo ≤ pid ∧ pid ≤ hi := by
  have := scanFromAux_some_bounds b (hi + 1 - lo).toNat lo pid h
  omega

theorem scanFrom_some_free (b : List Bool) (lo hi pid : Int)
    (h : scanFrom b lo hi = some pid) : bitAt b pid = false :=
  scanFromAux_some_free b (hi + 1 - lo).toNat lo pid h

/-! ### Lemmas about bitmap reads and writes -/

theorem bitAt_set_self (b : List Bool) (pid : Int) (v : Bool)
    (h : pid.toNat < b.length) : bitAt (b.set pid.toNat v) pid = v := by
  rw [bitAt, List.getD_eq_getElem?_getD, List.getElem?_set_self h]
  rfl

/-! ### Well-formedness and reachability -/

/-- The structural invariant every allocator produced by the constructor
satisfies and every operation preserves: a valid nonnegative range, a
cursor inside it, and a bitmap of size `max_pid + 1`. -/
def WF (m : PIDManager) : Prop :=
  0 ≤ m.min_pid ∧ m.min_pid ≤ m.max_pid ∧
  m.min_pid ≤ m.next ∧ m.next ≤ m.max_pid ∧
  m.bitmap.length = (m.max_pid + 1).toNat

/-- States reachable from a successful construction through the public
operations. -/
inductive Reachable : PIDManager → Prop where
  | construct (lo hi : Int) (m : PIDManager) :
      mkPIDManager lo hi = Except.ok m → Reachable m
  | amap (m : PIDManager) : Reachable m → Reachable (m.allocate_map).2
  | alloc (m : PIDManager) : Reachable m → Reachable (m.allocate_pid).2
  | rel (m : PIDManager) (pid : Int) :
      Reachable m → Reachable (m.release_pid pid)

theorem WF_mk (lo hi : Int) (m : PIDManager)
    (h : mkPIDManager lo hi = Except.ok m) : WF m := by
  rw [mkPIDManager] at h
  split at h
  · exact absurd h (by simp)
  · next hcond =>
    push_neg at hcond
    obtain rfl : _ = m := by simpa using h
    exact ⟨hcond.1, hcond.2, le_refl _, hcond.2, by simp⟩

theorem WF_allocate_map (m : PIDManager) (h : WF m) :
    WF (m.allocate_map).2 := by
  obtain ⟨h1, h2, h3, h4, h5⟩ := h
  rw [PIDManager.allocate_map]
  exact ⟨h1, h2, le_refl _, h2, by simp [h5]⟩

theorem WF_release_pid (m : PIDManager) (pid : Int) (h : WF m) :
    WF (m.release_pid pid) := by
  obtain ⟨h1, h2, h3, h4, h5⟩ := h
  rw [PIDManager.release_pid]
  split
  · exact ⟨h1, h2, h3, h4, h5⟩
  · split
    · exact ⟨h1, h2, h3, h4, h5⟩
    · next hin =>
      push_neg at hin
      refine ⟨h1, h2, ?_, ?_, by simp [h5]⟩
      · show m.min_pid ≤ (if pid < m.next then pid else m.next)
        split <;> omega
      · show (if pid < m.next then pid else m.next) ≤ m.max_pid
        split <;> omega

/-- Case analysis of a successful `allocate_pid` call: it happened on an
initialized, non-degenerate manager, the returned pid came from one of
the two scans, and the new state marks it and advances the cursor. -/
theorem allocate_pid_some (m : PIDManager) (pid : Int) (m' : PIDManager)
    (h : m.allocate_pid = (pid, m')) (hok : pid ≠ -1) :
    m.initialized_ = true ∧ m.min_pid ≤ m.max_pid ∧
    (scanFrom m.bitmap m.next m.max_pid = some pid ∨
      (scanFrom m.bitmap m.next m.max_pid = none ∧
       scanFrom m.bitmap m.min_pid (m.next - 1) = some pid)) ∧
    m' = { m with bitmap := m.bitmap.set pid.toNat true
                  next := nextAfter m pid } := by
  rw [PIDManager.allocate_pid] at h
  split at h
  · exact absurd (Prod.ext_iff.mp h).1.symm hok
  · next hi =>
    split at h
    · exact absurd (Prod.ext_iff.mp h).1.symm hok
    · next hle =>
      refine ⟨by simpa using hi, by omega, ?_⟩
      split at h
      · next p h1 =>
        obtain ⟨rfl, rfl⟩ := Prod.ext_iff.mp h
        exact ⟨Or.inl h1, rfl⟩
      · next h1 =>
        split at h
        · next p h2 =>
          obtain ⟨rfl, rfl⟩ := Prod.ext_iff.mp h
          exact ⟨Or.inr ⟨h1, h2⟩, rfl⟩
        · exact absurd (Prod.ext_iff.mp h).1.symm hok

/-- A successful allocation under `WF` returns an in-range, previously
free slot. -/
theorem allocate_pid_some_bounds (m : PIDManager) (pid : Int) (m' : PIDManager)
    (hwf : WF m) (h : m.allocate_pid = (pid, m')) (hok : pid ≠ -1) :
    m.min_pid ≤ pid ∧ pid ≤ m.max_pid ∧ bitAt m.bitmap pid = false := by
  obtain ⟨h1, h2, h3, h4, h5⟩ := hwf
  obtain ⟨_, _, hscan, _⟩ := allocate_pid_some m pid m' h hok
  rcases hscan with hs | ⟨_, hs⟩
  · have hb := scanFrom_some_bounds _ _ _ _ hs
    exact ⟨by omega, by omega, scanFrom_some_free _ _ _ _ hs⟩
  · have hb := scanFrom_some_bounds _ _ _ _ hs
    exact ⟨by omega, by omega, scanFrom_some_free _ _ _ _ hs⟩

theorem WF_allocate_pid (m : PIDManager) (h : WF m) :
    WF (m.allocate_pid).2 := by
  obtain ⟨h1, h2, h3, h4, h5⟩ := h
  rw [PIDManager.allocate_pid]
  split
  · exact ⟨h1, h2, h3, h4, h5⟩
  · split
    · exact ⟨h1, h2, h3, h4, h5⟩
    · split
      · next p h6 =>
        have hb := scanFrom_some_bounds _ _ _ _ h6
        refine ⟨h1, h2, ?_, ?_, by simp [h5]⟩
        · show m.min_pid ≤ nextAfter m p
          rw [nextAfter]
          split <;> omega
        · show nextAfter m p ≤ m.max_pid
          rw [nextAfter]
          split <;> omega
      · split
        · next p h6 =>
          have hb := scanFrom_some_bounds _ _ _ _ h6
          refine ⟨h1, h2, ?_, ?_, by simp [h5]⟩
          · show m.min_pid ≤ nextAfter m p
            rw [nextAfter]
            split <;> omega
          · show nextAfter m p ≤ m.max_pid
            rw [nextAfter]
            split <;> omega
        · exact ⟨h1, h2, h3, h4, h5⟩

theorem Reachable_WF (m : PIDManager) (h : Reachable m) : WF m := by
  induction h with
  | construct lo hi m hmk => exact WF_mk lo hi m hmk
  | amap m _ ih => exact WF_allocate_map m ih
  | alloc m _ ih => exact WF_allocate_pid m ih
  | rel m pid _ ih => exact WF_release_pid m pid ih

/-! ### Concrete states used by witnesses and counterexamples -/

/-- The object produced by `PIDManager tiny(1, 3);` in `src/test.cpp`. -/
def mgrConstructed : PIDManager :=
  { min_pid := 1, max_pid := 3, bitmap := List.replicate 4 false
    next := 1, initialized_ := false }

/-- `tiny` after `tiny.allocate_map();`. -/
def mgrInit : PIDManager := (mgrConstructed.allocate_map).2

/-- An initialized `[1, 3]` manager whose cursor sits at `3` while slot `1`
is FREE (slot `2` IN_USE, slot `3` FREE); used to show that a redundant
release of the already-free slot `1` changes the next allocation. -/
def demoM : PIDManager :=
  { min_pid := 1, max_pid := 3, bitmap := [false, false, true, false]
    next := 3, initialized_ := true }

theorem bitAt_set_of_val (b : List Bool) (i : Int) (v : Bool)
    (h : bitAt b i = v) (q : Int) : bitAt (b.set i.toNat v) q = bitAt b q := by
  rw [bitAt, bitAt, List.getD_eq_getElem?_getD, List.getD_eq_getElem?_getD,
    List.getElem?_set']
  by_cases he : i.toNat = q.toNat
  · rw [if_pos he]
    rw [bitAt, List.getD_eq_getElem?_getD, he] at h
    cases hc : b[q.toNat]? with
    | none => simp [hc]
    | some x =>
      rw [hc] at h
      simp at h
      simp [hc, h]
  · rw [if_neg he]

/-! ### The claims -/

/-- C1: on an initialized allocator with `lower ≤ upper`, `allocate_pid`
returns the first FREE slot of the spec's wraparound scan order
(`[cursor, upper]` then `[lower, cursor)`), marks it IN_USE and advances
the cursor one past it (wrapping to `lower` past `upper`); it returns
`-1` when the scan finds nothing, when not initialized, or when
`lower > upper`. -/
theorem allocate_pid_matches_spec (m : PIDManager) :
    (m.initialized_ = false → m.allocate_pid = (-1, m)) ∧
    (m.max_pid < m.min_pid → m.allocate_pid = (-1, m)) ∧
    (m.initialized_ = true → m.min_pid ≤ m.max_pid →
      m.allocate_pid =
        match specFirstFree m with
        | some pid =>
          (pid, { m with bitmap := m.bitmap.set pid.toNat true
                         next := if m.max_pid < pid + 1
                                 then m.min_pid else pid + 1 })
        | none => (-1, m)) := by
  refine ⟨fun h0 => ?_, fun hd => ?_, fun hinit hle => ?_⟩
  · rw [PIDManager.allocate_pid, if_pos (by simp [h0])]
  · rw [PIDManager.allocate_pid]
    by_cases h0 : !m.initialized_
    · rw [if_pos h0]
    · rw [if_neg h0, if_pos hd]
  · have hsplit : specFirstFree m =
        (scanFrom m.bitmap m.next m.max_pid).or
          (scanFrom m.bitmap m.min_pid (m.next - 1)) := by
      rw [specFirstFree, specScanOrder, List.find?_append,
        scanFrom_eq_find?, scanFrom_eq_find?]
    rw [PIDManager.allocate_pid, if_neg (by simp [hinit]),
      if_neg (by omega), hsplit]
    cases hs1 : scanFrom m.bitmap m.next m.max_pid with
    | some p => simp [Option.or, nextAfter]
    | none =>
      cases hs2 : scanFrom m.bitmap m.min_pid (m.next - 1) with
      | some p => simp [Option.or, nextAfter]
      | none => simp [Option.or]

theorem allocate_pid_matches_spec_witness :
    mgrInit.initialized_ = true ∧ mgrInit.min_pid ≤ mgrInit.max_pid ∧
    mgrInit.allocate_pid =
      match specFirstFree mgrInit with
      | some pid =>
        (pid, { mgrInit with bitmap := mgrInit.bitmap.set pid.toNat true
                             next := if mgrInit.max_pid < pid + 1
                                     then mgrInit.min_pid else pid + 1 })
      | none => (-1, mgrInit) :=
  ⟨rfl, by decide, (allocate_pid_matches_spec mgrInit).2.2 rfl (by decide)⟩

/-- C2: `release_pid` is a no-op when uninitialized or when the pid is
outside `[lower, upper]`; otherwise it clears the pid's slot and sets the
cursor to the pid exactly when the pid is below the cursor. -/
theorem release_pid_matches_spec (m : PIDManager) (pid : Int) :
    (m.initialized_ = false → m.release_pid pid = m) ∧
    ((pid < m.min_pid ∨ m.max_pid < pid) → m.release_pid pid = m) ∧
    (m.initialized_ = true → m.min_pid ≤ pid → pid ≤ m.max_pid →
      m.release_pid pid =
        { m with bitmap := m.bitmap.set pid.toNat false
                 next := if pid < m.next then pid else m.next }) := by
  refine ⟨fun h0 => ?_, fun hout => ?_, fun hinit hlo hhi => ?_⟩
  · rw [PIDManager.release_pid, if_pos (by simp [h0])]
  · rw [PIDManager.release_pid]
    by_cases h0 : !m.initialized_
    · rw [if_pos h0]
    · rw [if_neg h0, if_pos hout]
  · rw [PIDManager.release_pid, if_neg (by simp [hinit]), if_neg (by omega)]

theorem release_pid_matches_spec_witness :
    mgrInit.initialized_ = true ∧
    mgrInit.min_pid ≤ 2 ∧ (2 : Int) ≤ mgrInit.max_pid ∧
    mgrInit.release_pid 2 =
      { mgrInit with bitmap := mgrInit.bitmap.set (2 : Int).toNat false
                     next := if 2 < mgrInit.next then 2 else mgrInit.next } :=
  ⟨rfl, by decide, by decide,
    (release_pid_matches_spec mgrInit 2).2.2 rfl (by decide) (by decide)⟩

/-- C3: in any reachable state, a successful `allocate_pid` returns an
identifier whose slot was FREE immediately before the call and is IN_USE
immediately after it — so an identifier still IN_USE is never handed out
twice without an intervening release. -/
theorem allocate_pid_no_double (m : PIDManager) (pid : Int) (m' : PIDManager)
    (hr : Reachable m) (h : m.allocate_pid = (pid, m')) (hok : pid ≠ -1) :
    m.is_allocated pid = false ∧ m'.is_allocated pid = true := by
  have hwf := Reachable_WF m hr
  obtain ⟨hlo, hhi, hfree⟩ := allocate_pid_some_bounds m pid m' hwf h hok
  obtain ⟨_, _, _, hm'⟩ := allocate_pid_some m pid m' h hok
  obtain ⟨h1, h2, h3, h4, h5⟩ := hwf
  have hlen : pid.toNat < m.bitmap.length := by
    rw [h5]
    omega
  constructor
  · show (if pid < m.min_pid ∨ m.max_pid < pid then false
          else bitAt m.bitmap pid) = false
    rw [if_neg (by omega)]
    exact hfree
  · rw [hm']
    show (if pid < m.min_pid ∨ m.max_pid < pid then false
          else bitAt (m.bitmap.set pid.toNat true) pid) = true
    rw [if_neg (by omega)]
    exact bitAt_set_self m.bitmap pid true hlen

theorem allocate_pid_no_double_witness :
    mgrInit.allocate_pid = (1, (mgrInit.allocate_pid).2) ∧ (1 : Int) ≠ -1 ∧
    mgrInit.is_allocated 1 = false ∧
    ((mgrInit.allocate_pid).2).is_allocated 1 = true :=
  ⟨by decide, by decide,
    allocate_pid_no_double mgrInit 1 (mgrInit.allocate_pid).2
      (Reachable.amap mgrConstructed (Reachable.construct 1 3 mgrConstructed rfl))
      (by decide) (by decide)⟩

/-- C4: in any reachable state, every successful `allocate_pid` result
lies in `[lower, upper]`, and the cursor lies in `[lower, upper]` both
before and after the call. -/
theorem allocate_pid_in_range (m : PIDManager) (pid : Int) (m' : PIDManager)
    (hr : Reachable m) (h : m.allocate_pid = (pid, m')) (hok : pid ≠ -1) :
    (m.min_pid ≤ pid ∧ pid ≤ m.max_pid) ∧
    (m.min_pid ≤ m.next ∧ m.next ≤ m.max_pid) ∧
    (m'.min_pid ≤ m'.next ∧ m'.next ≤ m'.max_pid) := by
  have hwf := Reachable_WF m hr
  obtain ⟨hlo, hhi, _⟩ := allocate_pid_some_bounds m pid m' hwf h hok
  have hwf' : WF (m.allocate_pid).2 := WF_allocate_pid m hwf
  rw [h] at hwf'
  exact ⟨⟨hlo, hhi⟩, ⟨hwf.2.2.1, hwf.2.2.2.1⟩, hwf'.2.2.1, hwf'.2.2.2.1⟩

theorem allocate_pid_in_range_witness :
    mgrInit.allocate_pid = (1, (mgrInit.allocate_pid).2) ∧ (1 : Int) ≠ -1 ∧
    (mgrInit.min_pid ≤ 1 ∧ (1 : Int) ≤ mgrInit.max_pid) ∧
    (mgrInit.min_pid ≤ mgrInit.next ∧ mgrInit.next ≤ mgrInit.max_pid) ∧
    (((mgrInit.allocate_pid).2).min_pid ≤ ((mgrInit.allocate_pid).2).next ∧
     ((mgrInit.allocate_pid).2).next ≤ ((mgrInit.allocate_pid).2).max_pid) :=
  ⟨by decide, by decide,
    allocate_pid_in_range mgrInit 1 (mgrInit.allocate_pid).2
      (Reachable.amap mgrConstructed (Reachable.construct 1 3 mgrConstructed rfl))
      (by decide) (by decide)⟩

/-- C5: on a `[1, 3]` allocator, freshly constructed and then
initialized with `allocate_map`, four consecutive `allocate_pid` calls
return `1, 2, 3, -1`. -/
theorem tiny_range_exhaustion :
    (mkPIDManager 1 3).map (fun m0 => allocResults (m0.allocate_map).2 4)
      = Except.ok [1, 2, 3, -1] := by
  rfl

/-- C6: on a `[1, 3]` allocator, freshly constructed and then
initialized, three allocations return `1, 2, 3`; after `release_pid 2`
the next `allocate_pid` returns `2`. -/
theorem tiny_range_reuse_after_release :
    (mkPIDManager 1 3).map (fun m0 =>
        (allocResults (m0.allocate_map).2 3,
         (((afterAllocs (m0.allocate_map).2 3).release_pid 2).allocate_pid).1))
      = Except.ok ([1, 2, 3], 2) := by
  rfl

/-- C7: on a freshly constructed, never-initialized allocator,
`allocate_pid` returns `-1` with the state unchanged, and `release_pid`
of any integer leaves the whole state (occupancy, cursor, flag, bounds)
unchanged. -/
theorem uninitialized_guard (lo hi : Int) (m : PIDManager)
    (h : mkPIDManager lo hi = Except.ok m) (x : Int) :
    m.allocate_pid = (-1, m) ∧ m.release_pid x = m := by
  have hinit : m.initialized_ = false := by
    rw [mkPIDManager] at h
    split at h
    · exact absurd h (by simp)
    · obtain rfl : _ = m := by simpa using h
      rfl
  constructor
  · rw [PIDManager.allocate_pid, if_pos (by simp [hinit])]
  · rw [PIDManager.release_pid, if_pos (by simp [hinit])]

theorem uninitialized_guard_witness :
    mkPIDManager 1 3 = Except.ok mgrConstructed ∧
    mgrConstructed.allocate_pid = (-1, mgrConstructed) ∧
    mgrConstructed.release_pid 42 = mgrConstructed :=
  ⟨rfl, uninitialized_guard 1 3 mgrConstructed rfl 42⟩

/-- C8 counterexample: for the constructed `[1, 3]` allocator the claim
predicts an occupancy structure of size `upper - lower + 1 = 3`, but the
code's bitmap has size `max_pid + 1 = 4` (it is indexed by the identifier
itself, not by `identifier - lower`). -/
theorem occupancy_size_counterexample :
    mkPIDManager 1 3 = Except.ok mgrConstructed ∧
    mgrConstructed.bitmap.length = 4 ∧ (4 : Nat) ≠ 3 - 1 + 1 :=
  ⟨rfl, rfl, by decide⟩

/-- C8 amended: for every constructed allocator the occupancy bitmap has
size `upper + 1` and is indexed directly by the identifier, so it covers
every integer in `[0, upper]`; in particular every identifier in
`[lower, upper]` indexes a valid slot. -/
theorem occupancy_size_amended (lo hi : Int) (m : PIDManager)
    (h : mkPIDManager lo hi = Except.ok m) :
    m.bitmap.length = (hi + 1).toNat ∧
    ∀ pid : Int, lo ≤ pid → pid ≤ hi → pid.toNat < m.bitmap.length := by
  rw [mkPIDManager] at h
  split at h
  · exact absurd h (by simp)
  · next hcond =>
    push_neg at hcond
    obtain rfl : _ = m := by simpa using h
    refine ⟨by simp, fun pid hp1 hp2 => ?_⟩
    simp only [List.length_replicate]
    omega

theorem occupancy_size_amended_witness :
    mkPIDManager 1 3 = Except.ok mgrConstructed ∧
    mgrConstructed.bitmap.length = ((3 : Int) + 1).toNat ∧
    (2 : Int).toNat < mgrConstructed.bitmap.length :=
  ⟨rfl, (occupancy_size_amended 1 3 mgrConstructed rfl).1,
    (occupancy_size_amended 1 3 mgrConstructed rfl).2 2 (by decide) (by decide)⟩

/-- C9: constructing an allocator with `lower > upper` or negative
`lower` fails fatally at construction time, for every such pair of
bounds: the constructor signals the error and no allocator value
results. -/
theorem invalid_construction (lo hi : Int) (h : lo < 0 ∨ hi < lo) :
    mkPIDManager lo hi = Except.error "Invalid PID range" := by
  rw [mkPIDManager, if_pos h]

theorem invalid_construction_witness :
    ((5 : Int) < 0 ∨ (2 : Int) < 5) ∧
    mkPIDManager 5 2 = Except.error "Invalid PID range" :=
  ⟨Or.inr (by decide), invalid_construction 5 2 (Or.inr (by decide))⟩

/-- C10: on an initialized allocator, releasing an in-range identifier
whose slot is already FREE leaves the occupancy of every slot unchanged
but still sets the cursor to the identifier when it is below the cursor
(release never checks whether the slot was IN_USE); concretely, on
`demoM` such a redundant release changes the next allocation from `3`
to `1`. -/
theorem redundant_release (m : PIDManager) (pid : Int)
    (hinit : m.initialized_ = true) (hlo : m.min_pid ≤ pid)
    (hhi : pid ≤ m.max_pid) (hfree : m.is_allocated pid = false) :
    (∀ q : Int, (m.release_pid pid).is_allocated q = m.is_allocated q) ∧
    (m.release_pid pid).next = (if pid < m.next then pid else m.next) ∧
    demoM.is_allocated 1 = false ∧
    (demoM.allocate_pid).1 = 3 ∧
    ((demoM.release_pid 1).allocate_pid).1 = 1 := by
  have hrel : m.release_pid pid =
      { m with bitmap := m.bitmap.set pid.toNat false
               next := if pid < m.next then pid else m.next } := by
    rw [PIDManager.release_pid, if_neg (by simp [hinit]), if_neg (by omega)]
  have hbit : bitAt m.bitmap pid = false := by
    rw [PIDManager.is_allocated, if_neg (by omega)] at hfree
    exact hfree
  refine ⟨fun q => ?_, ?_, by decide, by decide, by decide⟩
  · rw [hrel]
    show (if q < m.min_pid ∨ m.max_pid < q then false
          else bitAt (m.bitmap.set pid.toNat false) q) = m.is_allocated q
    rw [PIDManager.is_allocated, bitAt_set_of_val m.bitmap pid false hbit q]
  · rw [hrel]

theorem redundant_release_witness :
    mgrInit.initialized_ = true ∧ mgrInit.min_pid ≤ 2 ∧
    (2 : Int) ≤ mgrInit.max_pid ∧ mgrInit.is_allocated 2 = false ∧
    (mgrInit.release_pid 2).is_allocated 1 = mgrInit.is_allocated 1 ∧
    (mgrInit.release_pid 2).next
      = (if (2 : Int) < mgrInit.next then 2 else mgrInit.next) :=
  have h := redundant_release mgrInit 2 rfl (by decide) (by decide) (by decide)
  ⟨rfl, by decide, by decide, by decide, h.1 1, h.2.1⟩
